import Mathlib

/-!
Shallow embedding of the round-robin HTTP load balancer in `src/main.go`.

The Go program consists of:
* a `Server` interface with methods `Address`, `IsAlive`, and `Serve`;
* a `simpleServer` (address + reverse proxy) whose `IsAlive` always returns
  true, constructed by `newSimpleServer` via `url.Parse` and `handleErr`;
* a `LoadBalancer` struct (port, roundRobinCounter, servers) constructed by
  `NewLoadBalancer`, with the selection algorithm `getNextAvailableServer`
  and the request entry point `serveProxy`.

Modelling choices:
* A `Server` interface value is modelled by what its two pure methods return:
  its address and its liveness bit.  The `Serve` method performs network I/O;
  its outcome (backend reachable or erroring) is modelled by a boolean oracle
  passed to `serveProxy`.
* `roundRobinCounter` is a Go `int` that is initialised to 0 and only ever
  incremented; it is modelled as an unbounded natural number.
* The liveness-skip loop in `getNextAvailableServer` has no termination
  guarantee, so the embedding is fuel-indexed: `SelectResult.diverge` means
  the loop performed `fuel` skip iterations without finding a live server.
  A statement proved for every `fuel` therefore speaks about the loop itself.
* Go faults with an "integer divide by zero" runtime panic when
  `roundRobinCounter % len(servers)` is evaluated on an empty server list;
  this is the `SelectResult.fault` outcome (the one situation in which
  list indexing would be out of range).
-/

/-- Model of the Go `Server` interface (src/main.go lines 22-32): a value of
this type fixes what the pure methods `Address()` and `IsAlive()` return.
The sole concrete Go implementation (`simpleServer`) always returns `true`
from `IsAlive`, but the interface admits liveness-checking variants, which
is what the `isAlive` field ranges over. -/
structure Server where
  address : String
  isAlive : Bool
deriving DecidableEq

/-- `Address() string` — returns the server's address. -/
def Server.Address (s : Server) : String := s.address

/-- `IsAlive() bool` — returns the server's liveness. -/
def Server.IsAlive (s : Server) : Bool := s.isAlive

/-- Fallback server used only to make list indexing total in the model;
every theorem below works under hypotheses that keep indices in range. -/
def defaultServer : Server := { address := "", isAlive := false }

/-- `LoadBalancer` struct (src/main.go lines 16-20): a listen port, the
round-robin counter, and the ordered server list. -/
structure LoadBalancer where
  port : String
  roundRobinCounter : Nat
  servers : List Server
deriving DecidableEq

/-- `NewLoadBalancer` (src/main.go lines 44-50): builds the struct with the
counter at 0 and the given server list, performing no validation. -/
def NewLoadBalancer (port : String) (servers : List Server) : LoadBalancer :=
  { port := port, roundRobinCounter := 0, servers := servers }

/-- The index `lb.roundRobinCounter % len(lb.servers)` used by
`getNextAvailableServer` (src/main.go lines 86 and 89) each time it reads
the server list. -/
def effectiveIndex (lb : LoadBalancer) : Nat :=
  lb.roundRobinCounter % lb.servers.length

/-- Outcome of one call to `getNextAvailableServer`:
* `ok server lb'` — the call returned `server`, leaving the balancer in
  state `lb'`;
* `fault` — the Go runtime panicked: `roundRobinCounter % len(servers)`
  divides by zero because the server list is empty;
* `diverge` — the liveness-skip loop ran out of fuel: it performed `fuel`
  iterations without finding a live server. -/
inductive SelectResult where
  | ok (server : Server) (lb : LoadBalancer)
  | fault
  | diverge
deriving DecidableEq

/-- One scan step of `getNextAvailableServer` (src/main.go line 86/89 read
plus the line 87 loop guard): read `lb.servers[lb.roundRobinCounter %
len(lb.servers)]`; if the list is empty, the modulo faults; if the server
read is alive, the loop exits and the function increments the counter
(line 91) and returns the server; otherwise the `for` loop must iterate
again, reported as `diverge` (meaning: not done after this step). -/
def selectOnce (lb : LoadBalancer) : SelectResult :=
  match lb.servers.get? (effectiveIndex lb) with
  | none => SelectResult.fault
  | some server =>
    if server.IsAlive then
      SelectResult.ok server { lb with roundRobinCounter := lb.roundRobinCounter + 1 }
    else
      SelectResult.diverge

/-- `getNextAvailableServer` (src/main.go lines 85-94):

```go
server := lb.servers[lb.roundRobinCounter%len(lb.servers)]
for !server.IsAlive() {
    lb.roundRobinCounter++
    server = lb.servers[lb.roundRobinCounter%len(lb.servers)]
}
lb.roundRobinCounter++
return server
```

`fuel` bounds the number of skip iterations of the `for` loop (the Go loop
is unbounded; `diverge` reports fuel exhaustion): when the scan step says
the loop must continue, the loop body `lb.roundRobinCounter++` runs and the
scan repeats with one unit of fuel less. -/
def getNextAvailableServer : Nat → LoadBalancer → SelectResult
  | 0, lb => selectOnce lb
  | fuel + 1, lb =>
    match selectOnce lb with
    | SelectResult.diverge =>
        getNextAvailableServer fuel
          { lb with roundRobinCounter := lb.roundRobinCounter + 1 }
    | r => r

/-- `k` consecutive calls to `getNextAvailableServer`, collecting the
returned servers in order; `none` if any call faults or diverges. -/
def runSelections (fuel : Nat) (lb : LoadBalancer) : Nat → Option (List Server × LoadBalancer)
  | 0 => some ([], lb)
  | k + 1 =>
    match getNextAvailableServer fuel lb with
    | SelectResult.ok s lb' =>
      match runSelections fuel lb' k with
      | some (rest, lbEnd) => some (s :: rest, lbEnd)
      | none => none
    | _ => none

/-- Observable actions of one `serveProxy` call: the selection of a target
and the delegation to that target's `Serve` (with the backend outcome:
`true` = backend responded, `false` = backend error, which the reverse
proxy surfaces to the caller as a gateway error). -/
inductive ProxyEvent where
  | selected (s : Server)
  | forwarded (s : Server) (backendOk : Bool)
deriving DecidableEq

/-- `serveProxy` (src/main.go lines 96-104): calls `getNextAvailableServer`
once, then delegates the request to the selected server's `Serve`.  The
`backend` oracle says whether the backend of a given server responds or
errors; either way `serveProxy` does nothing further (no retry).  `none`
models a call that never returns (selection faulted or diverged). -/
def serveProxy (backend : Server → Bool) (fuel : Nat) (lb : LoadBalancer) :
    Option (LoadBalancer × List ProxyEvent) :=
  match getNextAvailableServer fuel lb with
  | SelectResult.ok targetServer lb' =>
      some (lb', [ProxyEvent.selected targetServer,
                  ProxyEvent.forwarded targetServer (backend targetServer)])
  | _ => none

/-- Concrete servers for the spec's scenarios: `A`, `B`, `C` all live, and a
dead variant of `B`. -/
def serverA : Server := { address := "A", isAlive := true }

def serverB : Server := { address := "B", isAlive := true }

def serverC : Server := { address := "C", isAlive := true }

def serverBDead : Server := { address := "B", isAlive := false }

/-! ### Upstream target construction (`newSimpleServer`, `handleErr`) -/

/-- The pre-resolved destination descriptor produced by `url.Parse`. -/
structure URL where
  raw : String
deriving DecidableEq

/-- `httputil.NewSingleHostReverseProxy(serverUrl)`: builds the forwarding
state of a `simpleServer` from the parsed destination descriptor; modelled
as the descriptor it wraps. -/
def NewSingleHostReverseProxy (serverUrl : URL) : URL := serverUrl

/-- `simpleServer` struct (src/main.go lines 37-40): the address string and
the reverse proxy built from its parse. -/
structure simpleServer where
  address : String
  proxy : URL
deriving DecidableEq

/-- `(s *simpleServer) Address()` (src/main.go line 52). -/
def simpleServer.Address (s : simpleServer) : String := s.address

/-- `(s *simpleServer) IsAlive()` (src/main.go line 54): always true. -/
def simpleServer.IsAlive (_ : simpleServer) : Bool := true

/-- Result of code that may terminate the whole process: either a value, or
process exit with the given status. -/
inductive ProcResult (α : Type) where
  | ok (val : α)
  | exited (status : Nat)
deriving DecidableEq

/-- Sequencing in the presence of process exit: once exited, nothing later
runs. -/
def ProcResult.andThen {α β : Type} : ProcResult α → (α → ProcResult β) → ProcResult β
  | ProcResult.exited s, _ => ProcResult.exited s
  | ProcResult.ok a, f => f a

/-- `handleErr` (src/main.go lines 63-68): if the error is non-nil, print it
and `os.Exit(1)`; otherwise return normally. -/
def handleErr (err : Option String) : ProcResult Unit :=
  match err with
  | some _ => ProcResult.exited 1
  | none => ProcResult.ok ()

/-- `newSimpleServer` (src/main.go lines 73-81): `url.Parse` is modelled by
the `parse` argument returning Go's two values `(serverUrl, err)`; the
error is passed to `handleErr`, then the struct is built from the given
address and the proxy for the parsed descriptor. -/
def newSimpleServer (parse : String → URL × Option String) (address : String) :
    ProcResult simpleServer :=
  let parsed := parse address
  ProcResult.andThen (handleErr parsed.2) fun _ =>
    ProcResult.ok { address := address, proxy := NewSingleHostReverseProxy parsed.1 }

/-! ### Concurrent selections

The surrounding HTTP server runs `serveProxy` on one goroutine per inbound
request, so `lb.roundRobinCounter` is read and written by several
goroutines with no synchronization.  The model below makes each memory
access of the selection path an atomic step and lets a schedule interleave
them.  It covers goroutines running `getNextAvailableServer` on a server
list whose every entry is alive (the scenario of the claim), where the
`for` loop body never runs, so a goroutine performs exactly three accesses:

* pc 0 — read `lb.roundRobinCounter` in
  `lb.servers[lb.roundRobinCounter%len(lb.servers)]` (line 86); this read
  determines the server this request is forwarded to;
* pc 1 — read `lb.roundRobinCounter` in `lb.roundRobinCounter++` (line 91);
* pc 2 — write `lb.roundRobinCounter++`, storing the value read at pc 1
  plus one;
* pc 3 — done.
-/

/-- Control state of one goroutine: program counter plus the two values it
has read from the shared counter. -/
structure ThreadState where
  pc : Nat
  selReg : Nat
  incReg : Nat
deriving DecidableEq

/-- A goroutine that has not started yet. -/
def initialThread : ThreadState := { pc := 0, selReg := 0, incReg := 0 }

/-- Shared state: the shared `roundRobinCounter`, the goroutines, and the
log of servers selected so far. -/
structure ConcState where
  roundRobinCounter : Nat
  threads : List ThreadState
  selections : List Server
deriving DecidableEq

/-- One atomic step of one goroutine: returns the new shared counter, the
new thread state, and the server selected by this step, if any. -/
def stepThread (servers : List Server) (counter : Nat) (t : ThreadState) :
    Nat × ThreadState × Option Server :=
  match t.pc with
  | 0 => (counter, { t with pc := 1, selReg := counter },
          some (servers.getD (counter % servers.length) defaultServer))
  | 1 => (counter, { t with pc := 2, incReg := counter }, none)
  | 2 => (t.incReg + 1, { t with pc := 3 }, none)
  | _ => (counter, t, none)

/-- Run a schedule: at each entry, the named goroutine (an index into the
thread list; out-of-range entries do nothing) performs its next atomic
step. -/
def runSchedule (servers : List Server) : List Nat → ConcState → ConcState
  | [], st => st
  | tid :: rest, st =>
    match st.threads.get? tid with
    | none => runSchedule servers rest st
    | some t =>
      let r := stepThread servers st.roundRobinCounter t
      runSchedule servers rest
        { roundRobinCounter := r.1,
          threads := st.threads.set tid r.2.1,
          selections := st.selections ++ r.2.2.toList }

/-- The interleaving in which two goroutines both read the counter before
either writes it back. -/
def lostUpdateSchedule : List Nat := [0, 1, 0, 1, 0, 1]

/-- Final state of two goroutines selecting against two live servers under
`lostUpdateSchedule`. -/
def lostUpdateRun : ConcState :=
  runSchedule [serverA, serverB] lostUpdateSchedule
    { roundRobinCounter := 0, threads := [initialThread, initialThread],
      selections := [] }

/-- Index of the `p`-th live server (construction order) in a list whose
only dead server sits at index `d`. -/
def liveIdx (d p : Nat) : Nat := if p < d then p else p + 1

/-- First live position reached by the cyclic scan from position `j` when
exactly index `d` (of `n`) is dead: `j` itself unless `j` is the dead
position, in which case its cyclic successor. -/
def firstLivePos (n d j : Nat) : Nat :=
  if j = d then (if d + 1 < n then d + 1 else 0) else j

/-! ### Basic stepping lemmas for the selection algorithm -/

theorem selectOnce_fault (lb : LoadBalancer) (h : lb.servers = []) :
    selectOnce lb = SelectResult.fault := by
  unfold selectOnce
  simp [effectiveIndex, h]

theorem selectOnce_ok (lb : LoadBalancer) (s : Server)
    (h : lb.servers.get? (effectiveIndex lb) = some s) (ha : s.IsAlive = true) :
    selectOnce lb =
      SelectResult.ok s { lb with roundRobinCounter := lb.roundRobinCounter + 1 } := by
  unfold selectOnce
  rw [h]
  simp [ha]

theorem selectOnce_diverge (lb : LoadBalancer) (s : Server)
    (h : lb.servers.get? (effectiveIndex lb) = some s) (ha : s.IsAlive = false) :
    selectOnce lb = SelectResult.diverge := by
  unfold selectOnce
  rw [h]
  simp [ha]

theorem select_ok_of_alive (fuel : Nat) (lb : LoadBalancer) (s : Server)
    (h : lb.servers.get? (effectiveIndex lb) = some s) (ha : s.IsAlive = true) :
    getNextAvailableServer fuel lb =
      SelectResult.ok s { lb with roundRobinCounter := lb.roundRobinCounter + 1 } := by
  cases fuel with
  | zero => rw [getNextAvailableServer, selectOnce_ok lb s h ha]
  | succ fuel => rw [getNextAvailableServer, selectOnce_ok lb s h ha]

theorem select_skip_of_dead (fuel : Nat) (lb : LoadBalancer) (s : Server)
    (h : lb.servers.get? (effectiveIndex lb) = some s) (ha : s.IsAlive = false) :
    getNextAvailableServer (fuel + 1) lb =
      getNextAvailableServer fuel { lb with roundRobinCounter := lb.roundRobinCounter + 1 } := by
  rw [getNextAvailableServer, selectOnce_diverge lb s h ha]

theorem select_diverge_of_dead_zero (lb : LoadBalancer) (s : Server)
    (h : lb.servers.get? (effectiveIndex lb) = some s) (ha : s.IsAlive = false) :
    getNextAvailableServer 0 lb = SelectResult.diverge := by
  rw [getNextAvailableServer, selectOnce_diverge lb s h ha]

theorem selectOnce_ok_inv (lb : LoadBalancer) (s : Server) (lb' : LoadBalancer)
    (h : selectOnce lb = SelectResult.ok s lb') :
    lb.servers.get? (effectiveIndex lb) = some s ∧ s.IsAlive = true ∧
      lb' = { lb with roundRobinCounter := lb.roundRobinCounter + 1 } := by
  unfold selectOnce at h
  cases hget : lb.servers.get? (effectiveIndex lb) with
  | none => rw [hget] at h; simp at h
  | some server =>
    rw [hget] at h
    simp only at h
    cases ha : server.IsAlive with
    | false => rw [ha] at h; simp at h
    | true =>
      rw [ha] at h
      simp only [if_true] at h
      obtain ⟨rfl, rfl⟩ := SelectResult.ok.inj h
      exact ⟨rfl, ha, rfl⟩

theorem selectOnce_diverge_inv (lb : LoadBalancer)
    (h : selectOnce lb = SelectResult.diverge) :
    ∃ d, lb.servers.get? (effectiveIndex lb) = some d ∧ d.IsAlive = false := by
  unfold selectOnce at h
  cases hget : lb.servers.get? (effectiveIndex lb) with
  | none => rw [hget] at h; simp at h
  | some server =>
    rw [hget] at h
    simp only at h
    cases ha : server.IsAlive with
    | true => rw [ha] at h; simp at h
    | false => exact ⟨server, rfl, ha⟩

/-- Full inversion of a successful selection. -/
theorem select_ok_spec : ∀ (fuel : Nat) (lb : LoadBalancer) (s : Server) (lb' : LoadBalancer),
    getNextAvailableServer fuel lb = SelectResult.ok s lb' →
    s.IsAlive = true ∧ lb'.port = lb.port ∧ lb'.servers = lb.servers ∧
      ∃ t, t ≤ fuel ∧
        lb'.roundRobinCounter = lb.roundRobinCounter + t + 1 ∧
        lb.servers.get? ((lb.roundRobinCounter + t) % lb.servers.length) = some s ∧
        ∀ i, i < t → ∃ d,
          lb.servers.get? ((lb.roundRobinCounter + i) % lb.servers.length) = some d ∧
          d.IsAlive = false := by
  intro fuel
  induction fuel with
  | zero =>
    intro lb s lb' h
    rw [getNextAvailableServer] at h
    obtain ⟨hget, ha, rfl⟩ := selectOnce_ok_inv lb s lb' h
    refine ⟨ha, rfl, rfl, 0, Nat.le_refl 0, rfl, ?_, ?_⟩
    · simpa [effectiveIndex] using hget
    · intro i hi; exact absurd hi (Nat.not_lt_zero i)
  | succ fuel ih =>
    intro lb s lb' h
    rw [getNextAvailableServer] at h
    cases hs : selectOnce lb with
    | ok s0 lb0 =>
      rw [hs] at h
      simp only at h
      obtain ⟨rfl, rfl⟩ := SelectResult.ok.inj h
      obtain ⟨hget, ha, rfl⟩ := selectOnce_ok_inv lb s0 _ hs
      refine ⟨ha, rfl, rfl, 0, Nat.zero_le _, rfl, ?_, ?_⟩
      · simpa [effectiveIndex] using hget
      · intro i hi; exact absurd hi (Nat.not_lt_zero i)
    | fault => rw [hs] at h; simp at h
    | diverge =>
      rw [hs] at h
      simp only at h
      obtain ⟨ha, hport, hservers, t, ht, hcount, hget, hdead⟩ :=
        ih { lb with roundRobinCounter := lb.roundRobinCounter + 1 } s lb' h
      obtain ⟨d0, hd0, hd0a⟩ := selectOnce_diverge_inv lb hs
      refine ⟨ha, hport, hservers, t + 1, Nat.succ_le_succ ht, ?_, ?_, ?_⟩
      · simpa [Nat.add_assoc, Nat.add_comm 1 t] using hcount
      · have harith : lb.roundRobinCounter + 1 + t = lb.roundRobinCounter + (t + 1) := by omega
        simpa [harith] using hget
      · intro i hi
        cases i with
        | zero =>
          refine ⟨d0, ?_, hd0a⟩
          simpa [effectiveIndex] using hd0
        | succ j =>
          have hj : j < t := by omega
          have harith : lb.roundRobinCounter + 1 + j = lb.roundRobinCounter + (j + 1) := by omega
          obtain ⟨d, hd, hda⟩ := hdead j hj
          exact ⟨d, by simpa [harith] using hd, hda⟩

/-- On a non-empty server list the scanned index is always in range, so the
scan step never faults and reads an actual list element. -/
theorem selectOnce_reads_of_nonempty (lb : LoadBalancer) (h : lb.servers ≠ []) :
    ∃ s, lb.servers.get? (effectiveIndex lb) = some s ∧ s ∈ lb.servers := by
  have hlen : 0 < lb.servers.length := List.length_pos.mpr h
  have hidx : effectiveIndex lb < lb.servers.length := Nat.mod_lt _ hlen
  refine ⟨lb.servers.get ⟨effectiveIndex lb, hidx⟩, List.get?_eq_get hidx, List.get_mem _ _ _⟩

/-- When every server is dead, the skip loop consumes all fuel: the Go loop
never terminates. -/
theorem select_diverge_of_allDead : ∀ (fuel : Nat) (lb : LoadBalancer),
    lb.servers ≠ [] → (∀ s ∈ lb.servers, s.IsAlive = false) →
    getNextAvailableServer fuel lb = SelectResult.diverge := by
  intro fuel
  induction fuel with
  | zero =>
    intro lb h hdead
    obtain ⟨s, hget, hmem⟩ := selectOnce_reads_of_nonempty lb h
    rw [getNextAvailableServer, selectOnce_diverge lb s hget (hdead s hmem)]
  | succ fuel ih =>
    intro lb h hdead
    obtain ⟨s, hget, hmem⟩ := selectOnce_reads_of_nonempty lb h
    rw [getNextAvailableServer, selectOnce_diverge lb s hget (hdead s hmem)]
    exact ih _ h hdead

/-- On a non-empty server list, no amount of looping reaches an
out-of-range read: the modulo keeps every index below the length. -/
theorem select_ne_fault : ∀ (fuel : Nat) (lb : LoadBalancer), lb.servers ≠ [] →
    getNextAvailableServer fuel lb ≠ SelectResult.fault := by
  intro fuel
  induction fuel with
  | zero =>
    intro lb h
    obtain ⟨s, hget, _⟩ := selectOnce_reads_of_nonempty lb h
    cases ha : s.IsAlive with
    | true => rw [getNextAvailableServer, selectOnce_ok lb s hget ha]; simp
    | false => rw [getNextAvailableServer, selectOnce_diverge lb s hget ha]; simp
  | succ fuel ih =>
    intro lb h
    obtain ⟨s, hget, _⟩ := selectOnce_reads_of_nonempty lb h
    cases ha : s.IsAlive with
    | true => rw [getNextAvailableServer, selectOnce_ok lb s hget ha]; simp
    | false =>
      rw [getNextAvailableServer, selectOnce_diverge lb s hget ha]
      exact ih _ h

/-- Arithmetic of the cyclic scan: starting anywhere, the offset
`(j + n - c % n) % n` lands exactly on position `j`. -/
theorem mod_cycle_hit (c j n : Nat) (hn : 0 < n) (hj : j < n) :
    (c + (j + n - c % n) % n) % n = j := by
  have hr : c % n < n := Nat.mod_lt _ hn
  have e1 : Nat.ModEq n c (c % n) := (Nat.mod_modEq c n).symm
  have e2 : Nat.ModEq n ((j + n - c % n) % n) (j + n - c % n) := Nat.mod_modEq _ n
  have e3 : Nat.ModEq n (c + (j + n - c % n) % n) (c % n + (j + n - c % n)) :=
    Nat.ModEq.add e1 e2
  have e4 : c % n + (j + n - c % n) = j + n := by omega
  rw [e4] at e3
  have e5 : (c + (j + n - c % n) % n) % n = (j + n) % n := e3
  rw [e5, Nat.add_mod_right, Nat.mod_eq_of_lt hj]

/-- If some position within the next `k` scan offsets holds a live server
and the fuel allows `k - 1` skips, the selection succeeds. -/
theorem select_terminates_aux : ∀ (k fuel : Nat) (lb : LoadBalancer),
    k ≤ fuel + 1 →
    (∃ t, t < k ∧ ∃ s,
      lb.servers.get? ((lb.roundRobinCounter + t) % lb.servers.length) = some s ∧
      s.IsAlive = true) →
    ∃ s lb', getNextAvailableServer fuel lb = SelectResult.ok s lb' := by
  intro k
  induction k with
  | zero =>
    intro fuel lb _ hex
    obtain ⟨t, ht, _⟩ := hex
    exact absurd ht (Nat.not_lt_zero t)
  | succ k ih =>
    intro fuel lb hfuel hex
    obtain ⟨t, ht, s, hgets, hs⟩ := hex
    have hne : lb.servers ≠ [] := by
      intro hnil
      rw [hnil] at hgets
      simp at hgets
    obtain ⟨s0, hget0, _⟩ := selectOnce_reads_of_nonempty lb hne
    cases ha : s0.IsAlive with
    | true =>
      exact ⟨s0, _, select_ok_of_alive fuel lb s0 hget0 ha⟩
    | false =>
      cases t with
      | zero =>
        rw [Nat.add_zero] at hgets
        rw [show (lb.roundRobinCounter % lb.servers.length) = effectiveIndex lb from rfl] at hgets
        rw [hget0] at hgets
        obtain rfl := Option.some.inj hgets
        rw [ha] at hs
        exact absurd hs (by simp)
      | succ t' =>
        have hk : 1 ≤ k := by omega
        obtain ⟨f, rfl⟩ : ∃ f, fuel = f + 1 := ⟨fuel - 1, by omega⟩
        rw [getNextAvailableServer, selectOnce_diverge lb s0 hget0 ha]
        apply ih f { lb with roundRobinCounter := lb.roundRobinCounter + 1 } (by omega)
        refine ⟨t', by omega, s, ?_, hs⟩
        have harith : lb.roundRobinCounter + 1 + t' = lb.roundRobinCounter + (t' + 1) := by omega
        simpa [harith] using hgets

/-- With every server alive the loop never iterates: `k` consecutive calls
return the servers at offsets `counter, counter+1, ..., counter+k-1`
(each taken modulo the length) and advance the counter by exactly `k`. -/
theorem runSelections_allAlive : ∀ (k fuel : Nat) (lb : LoadBalancer),
    lb.servers ≠ [] → (∀ s ∈ lb.servers, s.IsAlive = true) →
    runSelections fuel lb k =
      some (((List.range k).map fun i =>
          lb.servers.getD ((lb.roundRobinCounter + i) % lb.servers.length) defaultServer),
        { lb with roundRobinCounter := lb.roundRobinCounter + k }) := by
  intro k
  induction k with
  | zero =>
    intro fuel lb _ _
    simp [runSelections]
  | succ k ih =>
    intro fuel lb hne halive
    obtain ⟨s0, hget0, hmem0⟩ := selectOnce_reads_of_nonempty lb hne
    rw [runSelections, select_ok_of_alive fuel lb s0 hget0 (halive s0 hmem0)]
    simp only
    rw [ih fuel { lb with roundRobinCounter := lb.roundRobinCounter + 1 } hne halive]
    simp only
    congr 1
    refine Prod.ext ?_ ?_
    · show s0 :: _ = _
      rw [List.range_succ_eq_map, List.map_cons, List.map_map]
      congr 1
      · rw [Nat.add_zero, List.getD_eq_getElem?_getD]
        show s0 = (lb.servers[effectiveIndex lb]?).getD defaultServer
        rw [← List.get?_eq_getElem?, hget0]
        rfl
      · apply List.map_congr_left
        intro i _
        show lb.servers.getD ((lb.roundRobinCounter + 1 + i) % lb.servers.length) defaultServer =
          lb.servers.getD ((lb.roundRobinCounter + (i + 1)) % lb.servers.length) defaultServer
        congr 2
        omega
    · show LoadBalancer.mk _ _ _ = LoadBalancer.mk _ _ _
      congr 1
      omega

/-- Reading a list at positions `0, ..., length-1` with a default value
reproduces the list. -/
theorem range_map_getD : ∀ (l : List Server),
    (List.range l.length).map (fun i => l.getD i defaultServer) = l := by
  intro l
  induction l with
  | nil => simp
  | cons a t ih =>
    simp only [List.length_cons, List.range_succ_eq_map, List.map_cons, List.map_map,
      Function.comp_def, List.getD_cons_zero, List.getD_cons_succ]
    exact congrArg (a :: ·) ih

/-- C1: over any non-empty all-live server list, `len(servers)` consecutive
calls to `getNextAvailableServer` starting from construction return exactly
the construction list — each target once, in construction order (hence the
rotation is cyclic with the construction order as its fixed anchor); and in
the concrete scenario `[A, B, C]` all live with the counter at 0, four
consecutive selections return `A, B, C, A`. -/
theorem selectNext_roundRobin_allAlive :
    (∀ (port : String) (servers : List Server) (fuel : Nat),
        servers ≠ [] → (∀ s ∈ servers, s.IsAlive = true) →
        runSelections fuel (NewLoadBalancer port servers) servers.length =
          some (servers,
            { port := port, roundRobinCounter := servers.length, servers := servers })) ∧
    runSelections 0 (NewLoadBalancer "8080" [serverA, serverB, serverC]) 4 =
      some ([serverA, serverB, serverC, serverA],
        { port := "8080", roundRobinCounter := 4,
          servers := [serverA, serverB, serverC] }) := by
  constructor
  · intro port servers fuel hne halive
    rw [runSelections_allAlive servers.length fuel (NewLoadBalancer port servers) hne halive]
    simp only [NewLoadBalancer]
    congr 1
    refine Prod.ext ?_ ?_
    · show (List.range servers.length).map
          (fun i => servers.getD ((0 + i) % servers.length) defaultServer) = servers
      have hcong : ∀ i ∈ List.range servers.length,
          servers.getD ((0 + i) % servers.length) defaultServer =
            servers.getD i defaultServer := by
        intro i hi
        rw [List.mem_range] at hi
        rw [Nat.zero_add, Nat.mod_eq_of_lt hi]
      rw [List.map_congr_left hcong, range_map_getD]
    · show LoadBalancer.mk port (0 + servers.length) servers =
          LoadBalancer.mk port servers.length servers
      rw [Nat.zero_add]
  · rfl

theorem selectNext_roundRobin_allAlive_witness :
    runSelections 0 (NewLoadBalancer "p" [serverA, serverB]) 2 =
      some ([serverA, serverB],
        { port := "p", roundRobinCounter := 2, servers := [serverA, serverB] }) :=
  selectNext_roundRobin_allAlive.1 "p" [serverA, serverB] 0 (by decide) (by decide)

/-- C3: over a non-empty server list the liveness-skip loop of
`getNextAvailableServer` terminates whenever some server is alive (fuel
`len(servers) - 1` suffices, i.e. at most one full scan), and when every
server is dead the loop never terminates: it exhausts any amount of fuel,
producing neither a server nor a "no available target" result. -/
theorem selectNext_loop_termination :
    ∀ (lb : LoadBalancer), lb.servers ≠ [] →
      ((∃ s ∈ lb.servers, s.IsAlive = true) →
        ∀ fuel, lb.servers.length ≤ fuel + 1 →
          ∃ s lb', getNextAvailableServer fuel lb = SelectResult.ok s lb') ∧
      ((∀ s ∈ lb.servers, s.IsAlive = false) →
        ∀ fuel, getNextAvailableServer fuel lb = SelectResult.diverge) := by
  intro lb hne
  constructor
  · intro halive fuel hfuel
    obtain ⟨s, hmem, hs⟩ := halive
    obtain ⟨j, hj⟩ := List.mem_iff_get.mp hmem
    have hn : 0 < lb.servers.length := List.length_pos.mpr hne
    apply select_terminates_aux lb.servers.length fuel lb hfuel
    refine ⟨(↑j + lb.servers.length - lb.roundRobinCounter % lb.servers.length) %
        lb.servers.length, Nat.mod_lt _ hn, s, ?_, hs⟩
    rw [mod_cycle_hit _ _ _ hn j.isLt]
    rw [List.get?_eq_get j.isLt]
    exact congrArg some hj
  · intro hdead fuel
    exact select_diverge_of_allDead fuel lb hne hdead

theorem selectNext_loop_termination_witness :
    (∃ s lb',
      getNextAvailableServer 1 (NewLoadBalancer "p" [serverBDead, serverC]) =
        SelectResult.ok s lb') ∧
    getNextAvailableServer 7 (NewLoadBalancer "q" [serverBDead]) = SelectResult.diverge :=
  ⟨(selectNext_loop_termination (NewLoadBalancer "p" [serverBDead, serverC])
      (by decide)).1 (by decide) 1 (by decide),
    (selectNext_loop_termination (NewLoadBalancer "q" [serverBDead])
      (by decide)).2 (by decide) 7⟩

/-- C5: on any balancer state with a non-empty server list — the counter may
hold any value, however large — the index `roundRobinCounter %
len(servers)` used for every list read lies strictly below the length, and
consequently no call to `getNextAvailableServer` ever reaches the
out-of-range read (`fault`), for any amount of loop fuel. -/
theorem selectNext_index_in_range :
    ∀ (lb : LoadBalancer), lb.servers ≠ [] →
      effectiveIndex lb < lb.servers.length ∧
      ∀ fuel, getNextAvailableServer fuel lb ≠ SelectResult.fault := by
  intro lb hne
  exact ⟨Nat.mod_lt _ (List.length_pos.mpr hne), fun fuel => select_ne_fault fuel lb hne⟩

theorem selectNext_index_in_range_witness :
    effectiveIndex { port := "p", roundRobinCounter := 1000, servers := [serverA] } <
      (LoadBalancer.mk "p" 1000 [serverA]).servers.length ∧
    getNextAvailableServer 3 { port := "p", roundRobinCounter := 1000, servers := [serverA] } ≠
      SelectResult.fault :=
  ⟨(selectNext_index_in_range { port := "p", roundRobinCounter := 1000, servers := [serverA] }
      (by decide)).1,
    (selectNext_index_in_range { port := "p", roundRobinCounter := 1000, servers := [serverA] }
      (by decide)).2 3⟩

/-- C10: `NewLoadBalancer` accepts an empty server list without any check —
it returns the balancer record unchanged — and on that balancer every call
to `getNextAvailableServer` immediately faults: `roundRobinCounter %
len(servers)` is a modulo by zero (Go: integer divide by zero panic). -/
theorem newLoadBalancer_empty_faults :
    ∀ (port : String),
      NewLoadBalancer port [] = { port := port, roundRobinCounter := 0, servers := [] } ∧
      ∀ fuel, getNextAvailableServer fuel (NewLoadBalancer port []) = SelectResult.fault := by
  intro port
  refine ⟨rfl, ?_⟩
  intro fuel
  cases fuel with
  | zero => rw [getNextAvailableServer, selectOnce_fault _ rfl]
  | succ fuel => rw [getNextAvailableServer, selectOnce_fault _ rfl]

/-- Uniqueness of the first live position along identical scan sequences:
if two scans visit the same positions, each finds only dead servers before
its hit, then they hit the same position and the same server. -/
theorem scan_first_alive_unique (servers : List Server) (p1 p2 : Nat → Nat)
    (hp : ∀ i, p1 i = p2 i) (t1 t2 : Nat) (s1 s2 : Server)
    (h1 : servers.get? (p1 t1) = some s1) (ha1 : s1.IsAlive = true)
    (hd1 : ∀ i, i < t1 → ∃ d, servers.get? (p1 i) = some d ∧ d.IsAlive = false)
    (h2 : servers.get? (p2 t2) = some s2) (ha2 : s2.IsAlive = true)
    (hd2 : ∀ i, i < t2 → ∃ d, servers.get? (p2 i) = some d ∧ d.IsAlive = false) :
    s1 = s2 := by
  rcases Nat.lt_trichotomy t1 t2 with hlt | heq | hgt
  · obtain ⟨d, hd, hda⟩ := hd2 t1 hlt
    rw [← hp t1, h1] at hd
    obtain rfl := Option.some.inj hd
    rw [ha1] at hda
    exact absurd hda (by simp)
  · subst heq
    rw [hp t1, h2] at h1
    exact (Option.some.inj h1).symm
  · obtain ⟨d, hd, hda⟩ := hd1 t2 hgt
    rw [hp t2, h2] at hd
    obtain rfl := Option.some.inj hd
    rw [ha2] at hda
    exact absurd hda (by simp)

/-- C4: every successful call to `getNextAvailableServer` advances the
counter by at least 1, and the returned server is a function of the server
list (carrying the liveness predicate) and of `roundRobinCounter %
len(servers)` at call time: two calls on states agreeing on those data
return the same server, whatever the absolute counters and fuels. -/
theorem selectNext_advances_and_deterministic :
    (∀ (fuel : Nat) (lb : LoadBalancer) (s : Server) (lb' : LoadBalancer),
        getNextAvailableServer fuel lb = SelectResult.ok s lb' →
        lb.roundRobinCounter + 1 ≤ lb'.roundRobinCounter) ∧
    (∀ (fuel1 fuel2 : Nat) (lb1 lb2 : LoadBalancer) (s1 s2 : Server)
        (lb1' lb2' : LoadBalancer),
        lb1.servers = lb2.servers →
        effectiveIndex lb1 = effectiveIndex lb2 →
        getNextAvailableServer fuel1 lb1 = SelectResult.ok s1 lb1' →
        getNextAvailableServer fuel2 lb2 = SelectResult.ok s2 lb2' →
        s1 = s2) := by
  constructor
  · intro fuel lb s lb' h
    obtain ⟨-, -, -, t, -, hcount, -, -⟩ := select_ok_spec fuel lb s lb' h
    omega
  · intro fuel1 fuel2 lb1 lb2 s1 s2 lb1' lb2' hservers hidx h1 h2
    obtain ⟨ha1, -, -, t1, -, -, hget1, hdead1⟩ := select_ok_spec fuel1 lb1 s1 lb1' h1
    obtain ⟨ha2, -, -, t2, -, -, hget2, hdead2⟩ := select_ok_spec fuel2 lb2 s2 lb2' h2
    unfold effectiveIndex at hidx
    rw [hservers] at hidx
    have hp : ∀ i, (lb1.roundRobinCounter + i) % lb2.servers.length =
        (lb2.roundRobinCounter + i) % lb2.servers.length := by
      intro i
      rw [Nat.add_mod, hidx, ← Nat.add_mod]
    rw [hservers] at hget1 hdead1
    exact scan_first_alive_unique lb2.servers _ _ hp t1 t2 s1 s2 hget1 ha1 hdead1 hget2 ha2 hdead2

theorem selectNext_advances_and_deterministic_witness :
    (NewLoadBalancer "p" [serverA, serverB]).roundRobinCounter + 1 ≤
      (LoadBalancer.mk "p" 1 [serverA, serverB]).roundRobinCounter ∧
    serverA = serverA :=
  ⟨selectNext_advances_and_deterministic.1 0 (NewLoadBalancer "p" [serverA, serverB])
      serverA (LoadBalancer.mk "p" 1 [serverA, serverB]) (by decide),
    selectNext_advances_and_deterministic.2 0 0
      (LoadBalancer.mk "p" 0 [serverA, serverB]) (LoadBalancer.mk "q" 2 [serverA, serverB])
      serverA serverA
      (LoadBalancer.mk "p" 1 [serverA, serverB]) (LoadBalancer.mk "q" 3 [serverA, serverB])
      (by decide) (by decide) (by decide) (by decide)⟩

/-- C6: `serveProxy` performs exactly one selection and delegates to exactly
the selected server: whenever the selection returns server `s`, the call's
full observable trace is one `selected s` event followed by one
`forwarded s` event carrying the backend outcome — in particular, when the
backend errors (`backend s = false`) nothing further happens: no second
selection, no other server, no retry. -/
theorem serveProxy_selects_once_no_retry :
    ∀ (backend : Server → Bool) (fuel : Nat) (lb : LoadBalancer)
      (s : Server) (lb' : LoadBalancer),
      getNextAvailableServer fuel lb = SelectResult.ok s lb' →
      serveProxy backend fuel lb =
        some (lb', [ProxyEvent.selected s, ProxyEvent.forwarded s (backend s)]) := by
  intro backend fuel lb s lb' h
  unfold serveProxy
  rw [h]

theorem serveProxy_selects_once_no_retry_witness :
    serveProxy (fun _ => false) 0 (NewLoadBalancer "p" [serverA]) =
      some (LoadBalancer.mk "p" 1 [serverA],
        [ProxyEvent.selected serverA, ProxyEvent.forwarded serverA false]) :=
  serveProxy_selects_once_no_retry (fun _ => false) 0 (NewLoadBalancer "p" [serverA])
    serverA (LoadBalancer.mk "p" 1 [serverA]) (by decide)

/-- C8: the two router operations mutate only the round-robin counter: any
successful `getNextAvailableServer` or `serveProxy` call leaves the port
and the server list (length, order and elements) of the balancer exactly as
they were. -/
theorem router_mutates_only_counter :
    ∀ (fuel : Nat) (lb : LoadBalancer),
      (∀ s lb', getNextAvailableServer fuel lb = SelectResult.ok s lb' →
        lb'.port = lb.port ∧ lb'.servers = lb.servers) ∧
      (∀ backend lb' events, serveProxy backend fuel lb = some (lb', events) →
        lb'.port = lb.port ∧ lb'.servers = lb.servers) := by
  intro fuel lb
  constructor
  · intro s lb' h
    obtain ⟨-, hport, hservers, -⟩ := select_ok_spec fuel lb s lb' h
    exact ⟨hport, hservers⟩
  · intro backend lb' events h
    unfold serveProxy at h
    cases hg : getNextAvailableServer fuel lb with
    | ok s lbm =>
      rw [hg] at h
      simp only at h
      obtain ⟨h1, -⟩ := Prod.mk.inj (Option.some.inj h)
      obtain ⟨-, hport, hservers, -⟩ := select_ok_spec fuel lb s lbm hg
      rw [← h1]
      exact ⟨hport, hservers⟩
    | fault => rw [hg] at h; simp at h
    | diverge => rw [hg] at h; simp at h

theorem router_mutates_only_counter_witness :
    (LoadBalancer.mk "p" 1 [serverA]).port = (NewLoadBalancer "p" [serverA]).port ∧
    (LoadBalancer.mk "p" 1 [serverA]).servers = (NewLoadBalancer "p" [serverA]).servers :=
  (router_mutates_only_counter 0 (NewLoadBalancer "p" [serverA])).1
    serverA (LoadBalancer.mk "p" 1 [serverA]) (by decide)

/-- C7: `newSimpleServer` parses the given address; when parsing reports an
error it terminates the process with the non-zero exit status 1 (through
`handleErr`) instead of returning an error value, and when parsing succeeds
it returns a server whose `Address()` is the given address. -/
theorem newSimpleServer_fatal_or_address :
    ∀ (parse : String → URL × Option String) (address : String),
      ((parse address).2 ≠ none →
        ∃ code, code ≠ 0 ∧ newSimpleServer parse address = ProcResult.exited code) ∧
      ((parse address).2 = none →
        ∃ s, newSimpleServer parse address = ProcResult.ok s ∧ s.Address = address) := by
  intro parse address
  constructor
  · intro herr
    refine ⟨1, one_ne_zero, ?_⟩
    unfold newSimpleServer
    dsimp only
    cases he : (parse address).2 with
    | none => exact absurd he herr
    | some e => rfl
  · intro herr
    refine ⟨{ address := address, proxy := NewSingleHostReverseProxy (parse address).1 },
      ?_, rfl⟩
    unfold newSimpleServer
    dsimp only
    rw [herr]
    rfl

theorem newSimpleServer_fatal_or_address_witness :
    (∃ code, code ≠ 0 ∧
      newSimpleServer (fun _ => (URL.mk "", some "parse error")) "://bad" =
        ProcResult.exited code) ∧
    (∃ s, newSimpleServer (fun a => (URL.mk a, none)) "http://localhost:8081" =
        ProcResult.ok s ∧ s.Address = "http://localhost:8081") :=
  ⟨(newSimpleServer_fatal_or_address (fun _ => (URL.mk "", some "parse error")) "://bad").1
      (by decide),
    (newSimpleServer_fatal_or_address (fun a => (URL.mk a, none)) "http://localhost:8081").2
      (by decide)⟩

/-- C9 (refuting evaluation): `K = 2` goroutines each perform one full
selection against `N = 2` live servers, yet under `lostUpdateSchedule` both
select server `A` — server `B` is selected `0 < ⌊K/N⌋ = 1` times — and the
shared counter ends at 1, not 2: one counter advance is lost, so the
unsynchronized concurrent selections of the Go code are not linearizable
and the claimed distribution bound fails. -/
theorem concurrent_selection_lost_update :
    lostUpdateRun.threads = [ThreadState.mk 3 0 0, ThreadState.mk 3 0 0] ∧
    lostUpdateRun.selections = [serverA, serverA] ∧
    lostUpdateRun.selections.length = 2 ∧
    lostUpdateRun.selections.count serverB = 0 ∧
    lostUpdateRun.roundRobinCounter = 1 := by
  refine ⟨rfl, rfl, rfl, ?_, rfl⟩
  decide

/-- Resolve a modulo of a value below twice the modulus. -/
theorem mod_of_lt_two_mul (x m : Nat) (h : x < 2 * m) :
    x % m = if x < m then x else x - m := by
  split_ifs with hx
  · exact Nat.mod_eq_of_lt hx
  · have hm : m ≤ x := by omega
    rw [Nat.mod_eq_sub_mod hm, Nat.mod_eq_of_lt (by omega)]

/-- Stepping the live-order position: scanning from the position after the
`p`-th live index finds the `(p+1 mod (n-1))`-th live index. -/
theorem firstLivePos_liveIdx_succ (n d p : Nat) (hn : 2 ≤ n) (hd : d < n) (hp : p < n - 1) :
    firstLivePos n d ((liveIdx d p + 1) % n) = liveIdx d ((p + 1) % (n - 1)) := by
  have h1 : liveIdx d p + 1 < 2 * n := by unfold liveIdx; split_ifs <;> omega
  have h2 : p + 1 < 2 * (n - 1) := by omega
  rw [mod_of_lt_two_mul _ _ h1, mod_of_lt_two_mul _ _ h2]
  unfold firstLivePos liveIdx
  split_ifs <;> omega

/-- The dead position is never its own cyclic successor when `n ≥ 2`. -/
theorem succ_mod_ne_self (d n : Nat) (hn : 2 ≤ n) (hd : d < n) : (d + 1) % n ≠ d := by
  rw [mod_of_lt_two_mul _ _ (by omega)]
  split_ifs <;> omega

/-- One selection under a single dead position `d`: the call returns the
server at the first live position of the cyclic scan from the cursor, and
advances the counter past that position (by 1, or by 2 when the scan
stepped over the dead position). -/
theorem selectNext_singleDead_step :
    ∀ (fuel : Nat) (lb : LoadBalancer) (d : Nat),
      1 ≤ fuel →
      2 ≤ lb.servers.length →
      d < lb.servers.length →
      (∀ i, i < lb.servers.length → i ≠ d →
        ∃ a, lb.servers.get? i = some a ∧ a.IsAlive = true) →
      (∀ a, lb.servers.get? d = some a → a.IsAlive = false) →
      getNextAvailableServer fuel lb =
        SelectResult.ok
          (lb.servers.getD (firstLivePos lb.servers.length d (effectiveIndex lb))
            defaultServer)
          { lb with roundRobinCounter :=
              if effectiveIndex lb = d then lb.roundRobinCounter + 2
              else lb.roundRobinCounter + 1 } := by
  intro fuel lb d hfuel hn hd halive hdead
  have hne : lb.servers ≠ [] := by
    intro hnil
    rw [hnil] at hn
    simp at hn
  obtain ⟨s0, hget0, -⟩ := selectOnce_reads_of_nonempty lb hne
  by_cases hjd : effectiveIndex lb = d
  · have hs0dead : s0.IsAlive = false := hdead s0 (hjd ▸ hget0)
    obtain ⟨f, rfl⟩ : ∃ f, fuel = f + 1 := ⟨fuel - 1, by omega⟩
    rw [select_skip_of_dead f lb s0 hget0 hs0dead]
    have hidx1 : effectiveIndex
        { lb with roundRobinCounter := lb.roundRobinCounter + 1 } =
        (d + 1) % lb.servers.length := by
      show (lb.roundRobinCounter + 1) % lb.servers.length = _
      conv_lhs => rw [Nat.add_mod]
      rw [show lb.roundRobinCounter % lb.servers.length = d from hjd]
      rw [Nat.mod_eq_of_lt (show (1 : Nat) < lb.servers.length from hn)]
    have hne1 : (d + 1) % lb.servers.length ≠ d := succ_mod_ne_self d _ hn hd
    have hlt1 : (d + 1) % lb.servers.length < lb.servers.length :=
      Nat.mod_lt _ (by omega)
    obtain ⟨a, hgeta, haliveA⟩ := halive ((d + 1) % lb.servers.length) hlt1 hne1
    have hgeta' : ({ lb with roundRobinCounter := lb.roundRobinCounter + 1 } :
        LoadBalancer).servers.get? (effectiveIndex
          { lb with roundRobinCounter := lb.roundRobinCounter + 1 }) = some a := by
      rw [hidx1]
      exact hgeta
    rw [select_ok_of_alive f _ a hgeta' haliveA]
    have hgetD : lb.servers.getD
        (firstLivePos lb.servers.length d (effectiveIndex lb)) defaultServer = a := by
      have hfl : firstLivePos lb.servers.length d (effectiveIndex lb) =
          (d + 1) % lb.servers.length := by
        unfold firstLivePos
        rw [if_pos hjd, mod_of_lt_two_mul _ _ (by omega)]
        split_ifs <;> omega
      rw [hfl, List.getD_eq_getElem?_getD, ← List.get?_eq_getElem?, hgeta]
      rfl
    rw [hgetD, if_pos hjd]
  · obtain ⟨a, hgeta, haliveA⟩ :=
      halive (effectiveIndex lb) (Nat.mod_lt _ (by omega)) hjd
    have hs0 : s0 = a := by
      rw [hget0] at hgeta
      exact Option.some.inj hgeta
    subst hs0
    rw [select_ok_of_alive fuel lb s0 hget0 haliveA]
    have hgetD : lb.servers.getD
        (firstLivePos lb.servers.length d (effectiveIndex lb)) defaultServer = s0 := by
      unfold firstLivePos
      rw [if_neg hjd, List.getD_eq_getElem?_getD, ← List.get?_eq_getElem?, hget0]
      rfl
    rw [hgetD, if_neg hjd]

/-- Incrementing before or after reducing modulo `n ≥ 2` agree. -/
theorem add_one_mod_eq (x n : Nat) (hn : 2 ≤ n) : (x + 1) % n = (x % n + 1) % n := by
  conv_lhs => rw [Nat.add_mod]
  rw [Nat.mod_eq_of_lt (show 1 < n from hn)]

/-- Runs under a single dead position `d`: when the scan is about to deliver
the `p`-th live server, the next `k` selections are the live servers in
cyclic construction order starting at `p`. -/
theorem runSelections_singleDead : ∀ (k : Nat) (lb : LoadBalancer) (d p fuel : Nat),
    1 ≤ fuel →
    2 ≤ lb.servers.length →
    d < lb.servers.length →
    (∀ i, i < lb.servers.length → i ≠ d →
      ∃ a, lb.servers.get? i = some a ∧ a.IsAlive = true) →
    (∀ a, lb.servers.get? d = some a → a.IsAlive = false) →
    p < lb.servers.length - 1 →
    firstLivePos lb.servers.length d (effectiveIndex lb) = liveIdx d p →
    ∃ lbEnd, runSelections fuel lb k =
      some ((List.range k).map (fun i =>
        lb.servers.getD (liveIdx d ((p + i) % (lb.servers.length - 1))) defaultServer),
        lbEnd) := by
  intro k
  induction k with
  | zero =>
    intro lb d p fuel _ _ _ _ _ _ _
    exact ⟨lb, by simp [runSelections]⟩
  | succ k ih =>
    intro lb d p fuel hfuel hn hd halive hdead hp hinv
    rw [runSelections, selectNext_singleDead_step fuel lb d hfuel hn hd halive hdead]
    simp only
    set lb1 : LoadBalancer :=
      { lb with roundRobinCounter :=
          if effectiveIndex lb = d then lb.roundRobinCounter + 2
          else lb.roundRobinCounter + 1 } with hlb1
    have hidx1 : effectiveIndex lb1 =
        (liveIdx d p + 1) % lb.servers.length := by
      by_cases hjd : effectiveIndex lb = d
      · have hlive : liveIdx d p = (d + 1) % lb.servers.length := by
          rw [← hinv, hjd]
          unfold firstLivePos
          rw [if_pos rfl, mod_of_lt_two_mul _ _ (by omega)]
          split_ifs <;> omega
        show lb1.roundRobinCounter % lb1.servers.length = _
        rw [hlb1]
        simp only [if_pos hjd]
        show (lb.roundRobinCounter + 2) % lb.servers.length = _
        rw [show lb.roundRobinCounter + 2 = lb.roundRobinCounter + 1 + 1 from rfl]
        rw [add_one_mod_eq _ _ hn, add_one_mod_eq lb.roundRobinCounter _ hn]
        rw [show lb.roundRobinCounter % lb.servers.length = d from hjd]
        rw [hlive, Nat.mod_add_mod]
      · have hlive : liveIdx d p = effectiveIndex lb := by
          rw [← hinv]
          unfold firstLivePos
          rw [if_neg hjd]
        show lb1.roundRobinCounter % lb1.servers.length = _
        rw [hlb1]
        simp only [if_neg hjd]
        show (lb.roundRobinCounter + 1) % lb.servers.length = _
        rw [add_one_mod_eq _ _ hn, hlive]
        rfl
    have hinv1 : firstLivePos lb1.servers.length d (effectiveIndex lb1) =
        liveIdx d ((p + 1) % (lb.servers.length - 1)) := by
      show firstLivePos lb.servers.length d (effectiveIndex lb1) = _
      rw [hidx1]
      exact firstLivePos_liveIdx_succ _ d p hn hd hp
    obtain ⟨lbEnd, hrun⟩ := ih lb1 d ((p + 1) % (lb.servers.length - 1)) fuel hfuel hn hd
      halive hdead (Nat.mod_lt _ (by omega)) hinv1
    rw [hrun]
    simp only
    refine ⟨lbEnd, ?_⟩
    congr 1
    refine Prod.ext ?_ rfl
    show _ :: _ = List.map _ (List.range (k + 1))
    rw [List.range_succ_eq_map, List.map_cons, List.map_map]
    congr 1
    · rw [hinv]
      congr 1
      congr 1
      rw [Nat.add_zero, Nat.mod_eq_of_lt hp]
    · apply List.map_congr_left
      intro i _
      show lb.servers.getD
          (liveIdx d (((p + 1) % (lb.servers.length - 1) + i) % (lb.servers.length - 1)))
          defaultServer = _
      rw [Nat.mod_add_mod]
      have : p + 1 + i = p + (i + 1) := by omega
      rw [this]
      rfl

/-- C2: when exactly one position of the server list is dead and every
other position is live, (i) a successful `getNextAvailableServer` call
never returns the server sitting at the dead position — the returned
server is live; (ii) the cyclic order among the remaining live servers is
preserved: from construction, the `k`-th selection is the live server at
cyclic position `k mod (len - 1)` of the construction order (`liveIdx`
enumerates the live positions in construction order); and (iii) in the
concrete scenario `[A, B, C]` with `B` dead and the counter at 0, three
consecutive selections return `A, C, A`. -/
theorem selectNext_skips_single_dead :
    (∀ (fuel : Nat) (lb : LoadBalancer) (d : Nat) (s : Server) (lb' : LoadBalancer),
        d < lb.servers.length →
        (∀ i, i < lb.servers.length → i ≠ d →
          ∃ a, lb.servers.get? i = some a ∧ a.IsAlive = true) →
        (∀ a, lb.servers.get? d = some a → a.IsAlive = false) →
        getNextAvailableServer fuel lb = SelectResult.ok s lb' →
        s.IsAlive = true ∧ lb.servers.get? d ≠ some s) ∧
    (∀ (port : String) (servers : List Server) (d fuel k : Nat),
        1 ≤ fuel →
        2 ≤ servers.length →
        d < servers.length →
        (∀ i, i < servers.length → i ≠ d →
          ∃ a, servers.get? i = some a ∧ a.IsAlive = true) →
        (∀ a, servers.get? d = some a → a.IsAlive = false) →
        ∃ lbEnd, runSelections fuel (NewLoadBalancer port servers) k =
          some ((List.range k).map (fun i =>
            servers.getD (liveIdx d (i % (servers.length - 1))) defaultServer),
            lbEnd)) ∧
    runSelections 1 (NewLoadBalancer "8080" [serverA, serverBDead, serverC]) 3 =
      some ([serverA, serverC, serverA],
        { port := "8080", roundRobinCounter := 4,
          servers := [serverA, serverBDead, serverC] }) := by
  refine ⟨?_, ?_, rfl⟩
  · intro fuel lb d s lb' _ _ hdead h
    obtain ⟨ha, -, -, -, -, -, -, -⟩ := select_ok_spec fuel lb s lb' h
    refine ⟨ha, ?_⟩
    intro hd
    rw [hdead s hd] at ha
    exact absurd ha (by simp)
  · intro port servers d fuel k hfuel hn hd halive hdead
    have hinv : firstLivePos servers.length d
        (effectiveIndex (NewLoadBalancer port servers)) = liveIdx d 0 := by
      show firstLivePos servers.length d (0 % servers.length) = liveIdx d 0
      rw [Nat.zero_mod]
      simp only [firstLivePos, liveIdx]
      split_ifs <;> omega
    obtain ⟨lbEnd, hrun⟩ := runSelections_singleDead k (NewLoadBalancer port servers)
      d 0 fuel hfuel hn hd halive hdead (show (0:Nat) < servers.length - 1 by omega) hinv
    refine ⟨lbEnd, ?_⟩
    rw [hrun]
    congr 1
    refine Prod.ext ?_ rfl
    show List.map _ (List.range k) = List.map _ (List.range k)
    apply List.map_congr_left
    intro i _
    rw [Nat.zero_add]
    rfl

theorem selectNext_skips_single_dead_witness :
    (serverA.IsAlive = true ∧
      (LoadBalancer.mk "p" 0 [serverA, serverBDead]).servers.get? 1 ≠ some serverA) ∧
    (∃ lbEnd, runSelections 1 (NewLoadBalancer "r" [serverA, serverBDead]) 3 =
      some ((List.range 3).map (fun i =>
        [serverA, serverBDead].getD (liveIdx 1 (i % 1)) defaultServer), lbEnd)) :=
  ⟨selectNext_skips_single_dead.1 1 (LoadBalancer.mk "p" 0 [serverA, serverBDead]) 1
      serverA (LoadBalancer.mk "p" 1 [serverA, serverBDead])
      (by decide) (by decide) (by decide) (by decide),
    selectNext_skips_single_dead.2.1 "r" [serverA, serverBDead] 1 1 3
      (by decide) (by decide) (by decide) (by decide) (by decide)⟩
